import Mathlib

/-!
Shallow embedding of the dxos protocol core (packages/protocol):
the Extension request/response runtime (extension.js), the envelope
codec (codec.js), the Protocol session object (protocol.js) and the
init-gate extension (extension-init.js), together with theorems that
settle the specification claims about them.

Machine bytes are modelled as natural numbers, JS objects as explicit
inductive data, thrown JS exceptions as Except, and the asynchronous
init handshake between two sessions as a small-step transition system
with explicit in-flight message queues.
-/

namespace Dxos

/-- Bytes of a JS Buffer, each entry the value of one byte. -/
abbrev Bytes := List Nat

/-- Hex digit character used by the Buffer hex conversion: 0-9 then a-f. -/
def hexDigit (n : Nat) : Char :=
  if n < 10 then Char.ofNat (48 + n) else Char.ofNat (87 + n)

/-- Two-character lowercase hex rendering of one byte. -/
def byteToHex (b : Nat) : String :=
  String.mk [hexDigit (b / 16 % 16), hexDigit (b % 16)]

/-- Hex string of a byte sequence, as produced by the Buffer hex conversion.
The pending-call table in extension.js is keyed by this string. -/
def bytesToHex (bs : Bytes) : String :=
  String.join (bs.map byteToHex)

/-- Decoded payload value carried in the data field of an envelope.
undef models a missing JS value, buffer a raw Buffer, wrapped the
object with a type url tag and a data field that extension.js builds
around raw buffers, obj any other structured value (kept opaque). -/
inductive JsData where
  | undef
  | buffer (bytes : Bytes)
  | wrapped (tag : String) (bytes : Bytes)
  | obj (repr : String)
deriving DecidableEq

/-- Decoded error object of an envelope: code and message fields. -/
structure ErrObj where
  code : Option String
  message : Option String
deriving DecidableEq

/-- Decoded options object of an envelope. -/
structure EnvOptions where
  oneway : Bool
deriving DecidableEq

/-- The envelope each Extension exchanges: id, data, options, error.
Optional fields model JS undefined. -/
structure Envelope where
  id : Option Bytes
  data : JsData
  error : Option ErrObj
  options : Option EnvOptions
deriving DecidableEq

/-- The empty envelope, the result of decoding invalid bytes. -/
def Envelope.empty : Envelope :=
  { id := none, data := JsData.undef, error := none, options := none }

/-- A JS exception thrown by the runtime itself (not by a user handler),
such as reading a property of undefined. -/
inductive JsCrash where
  | typeError (text : String)
deriving DecidableEq

/-- An error thrown by a user message handler. protocolErr records
whether the thrown value is an instance of ProtocolError, in which case
code is its code property; message is its message property. -/
structure ThrownError where
  protocolErr : Bool
  code : String
  message : String
deriving DecidableEq

/-- Result of invoking a user message handler: a return value or a throw. -/
inductive HandlerOutcome where
  | ok (ret : JsData)
  | throwErr (e : ThrownError)

/-- A user message handler, as a function of the decoded request data and
the decoded options object (extension.js passes the protocol as first
argument; it does not affect the modelled state, so it is omitted). -/
abbrev MessageHandler := JsData → EnvOptions → HandlerOutcome

/-- The value a pending-call promise settles with. -/
inductive SettleVal where
  | resolvedResponse (response : JsData)
  | resolvedUndefined
  | rejectedErr (e : ErrObj)
  | rejectedTimeout
deriving DecidableEq

/-- The per-call promise record of extension.js send: the mutable done and
expired flags, and the one-shot settlement of the returned promise. -/
structure CallState where
  idHex : String
  done : Bool
  expired : Bool
  settled : Option SettleVal
  timerArmed : Bool
deriving DecidableEq

/-- Settle a promise: a JS promise keeps its first settlement, later
resolve or reject calls are no-ops. -/
def CallState.settle (c : CallState) (v : SettleVal) : CallState :=
  match c.settled with
  | some _ => c
  | none => { c with settled := some v }

/-- Observable side effects of the Extension runtime. -/
inductive Effect where
  | writeFrame (env : Envelope)
  | emitSendEvent
  | emitReceiveEvent
  | emitErrorEvent (code : String) (message : Option String)
  | consoleWarn (text : String)
  | callCloseHandler (error : Option String)
deriving DecidableEq

/-- State of one Extension: the pending-message map (hex id to call index),
the call records, the stats counters, the configured timeout, the
optional user message handler, and whether a user close handler was
installed with setCloseHandler. -/
structure ExtState where
  pending : List (String × Nat)
  calls : List CallState
  statsSend : Nat
  statsReceive : Nat
  statsError : Nat
  timeoutMs : Nat
  messageHandler : Option MessageHandler
  closeHandler : Bool

/-- Lookup in the pending map (JS Map get). -/
def mapGet (m : List (String × Nat)) (k : String) : Option Nat :=
  (m.find? (fun p => p.1 == k)).map (fun p => p.2)

/-- Insert into the pending map (JS Map set: replace or append). -/
def mapSet (m : List (String × Nat)) (k : String) (v : Nat) : List (String × Nat) :=
  if (m.find? (fun p => p.1 == k)).isSome then
    m.map (fun p => if p.1 == k then (k, v) else p)
  else
    m ++ [(k, v)]

/-- Remove from the pending map (JS Map delete). -/
def mapDelete (m : List (String × Nat)) (k : String) : List (String × Nat) :=
  m.filter (fun p => p.1 != k)

/-- Replace call record i. -/
def updCall (st : ExtState) (i : Nat) (c : CallState) : ExtState :=
  { st with calls := st.calls.set i c }

/-- The sender callback installed by send, invoked by onMessage when a
pending id matches: bump the receive counter, emit receive, set done,
then reject with the error object, or drop an expired call with an
ERR_REQUEST_TIMEOUT error event, or resolve with the response. -/
def Extension.handleSenderCallback (st : ExtState) (i : Nat) (response : JsData)
    (error : Option ErrObj) : ExtState × List Effect :=
  match st.calls.get? i with
  | none => (st, [])
  | some c =>
    let st1 := { st with statsReceive := st.statsReceive + 1 }
    let c1 := { c with done := true }
    match error with
    | some e => (updCall st1 i (c1.settle (SettleVal.rejectedErr e)), [Effect.emitReceiveEvent])
    | none =>
      if c1.expired then
        (updCall st1 i c1, [Effect.emitReceiveEvent, Effect.emitErrorEvent "ERR_REQUEST_TIMEOUT" none])
      else
        (updCall st1 i (c1.settle (SettleVal.resolvedResponse response)), [Effect.emitReceiveEvent])

/-- Wrapping of a handler return value before responding: a raw Buffer is
wrapped as a typed Buffer object (extension.js onMessage). -/
def wrapBufferResponse : JsData → JsData
  | JsData.buffer b => JsData.wrapped "Buffer" b
  | x => x

/-- Extension.onMessage on an already decoded envelope. Reading the hex of
an absent id field throws a TypeError. Otherwise: a matching pending call
is removed and its sender callback runs; with no user handler installed a
warning is logged and an ERR_SYSTEM error event is emitted; otherwise the
handler runs and, unless the request is oneway, a response or an error
response (code from a ProtocolError, else ERR_SYSTEM) is written. -/
def Extension.onMessage (st : ExtState) (env : Envelope) :
    Except JsCrash (ExtState × List Effect) :=
  match env.id with
  | none => Except.error (JsCrash.typeError "Cannot read property toString of undefined")
  | some id =>
    let idHex := bytesToHex id
    match mapGet st.pending idHex with
    | some i =>
      let st1 := { st with pending := mapDelete st.pending idHex }
      Except.ok (Extension.handleSenderCallback st1 i env.data env.error)
    | none =>
      match st.messageHandler with
      | none =>
        Except.ok (st, [Effect.consoleWarn "No message handler.",
          Effect.emitErrorEvent "ERR_SYSTEM" (some "No message handler")])
      | some handler =>
        let opts := env.options.getD { oneway := false }
        match handler env.data opts with
        | HandlerOutcome.ok ret =>
          if opts.oneway then Except.ok (st, [])
          else
            Except.ok (st, [Effect.writeFrame
              { id := some id, data := wrapBufferResponse ret, error := none, options := none }])
        | HandlerOutcome.throwErr e =>
          if opts.oneway then Except.ok (st, [])
          else
            Except.ok (st, [Effect.writeFrame
              { id := some id, data := JsData.undef,
                error := some { code := some (if e.protocolErr then e.code else "ERR_SYSTEM"),
                                message := some e.message },
                options := none }])

/-- Result returned to the caller of send. -/
inductive SendOutcome where
  | resolvedUndefined
  | registered (i : Nat)
deriving DecidableEq

/-- Wrapping of an outgoing message: a raw Buffer is wrapped as a typed
dxos.protocol.Buffer object (extension.js send). -/
def wrapBufferSend : JsData → JsData
  | JsData.buffer b => JsData.wrapped "dxos.protocol.Buffer" b
  | x => x

/-- Extension.send: build the request envelope with a fresh id (passed
here as an argument, standing for crypto.randomBytes(32)), write it and
bump the send counter; a oneway send returns at once resolving to
undefined, otherwise a pending entry keyed by the hex of the id is
installed and a timer is armed when the timeout option is nonzero. -/
def Extension.send (st : ExtState) (id : Bytes) (message : JsData) (oneway : Bool) :
    ExtState × List Effect × SendOutcome :=
  let request : Envelope :=
    { id := some id, data := wrapBufferSend message, error := none,
      options := some { oneway := oneway } }
  let st1 := { st with statsSend := st.statsSend + 1 }
  let effs := [Effect.writeFrame request, Effect.emitSendEvent]
  if oneway then (st1, effs, SendOutcome.resolvedUndefined)
  else
    let idHex := bytesToHex id
    let c : CallState :=
      { idHex := idHex, done := false, expired := false, settled := none,
        timerArmed := st.timeoutMs != 0 }
    ({ st1 with calls := st1.calls ++ [c], pending := mapSet st1.pending idHex st1.calls.length },
      effs, SendOutcome.registered st1.calls.length)

/-- The timer callback armed by send for call i: when the call is not yet
done, mark it expired, bump the error counter and reject the promise with
an ERR_REQUEST_TIMEOUT code. The pending map is not touched. -/
def Extension.timerFire (st : ExtState) (i : Nat) : ExtState × List Effect :=
  match st.calls.get? i with
  | none => (st, [])
  | some c =>
    if c.done then (st, [])
    else
      let c1 := ({ c with expired := true }).settle SettleVal.rejectedTimeout
      ({ (updCall st i c1) with statsError := st.statsError + 1 }, [])

/-- Extension.onClose: invoke the user close handler when one is
installed, passing the stream error; the pending map, the call records
and the counters are not touched (extension.js onClose). -/
def Extension.onClose (st : ExtState) (error : Option String) : ExtState × List Effect :=
  (st, if st.closeHandler then [Effect.callCloseHandler error] else [])

/-- Events that drive one Extension: an outgoing send, a timer firing for
call i, an incoming decoded envelope, and the close event the Protocol
delivers on end of stream. -/
inductive ExtEvent where
  | sendReq (id : Bytes) (message : JsData) (oneway : Bool)
  | timer (i : Nat)
  | recv (env : Envelope)
  | close (error : Option String)

/-- One step of the Extension runtime. A crash inside onMessage rejects
the async function before any state was mutated, so the state is kept. -/
def extStep (st : ExtState) (e : ExtEvent) : ExtState × List Effect :=
  match e with
  | ExtEvent.sendReq id msg ow =>
    let r := Extension.send st id msg ow
    (r.1, r.2.1)
  | ExtEvent.timer i => Extension.timerFire st i
  | ExtEvent.recv env =>
    match Extension.onMessage st env with
    | Except.ok r => r
    | Except.error _ => (st, [])
  | ExtEvent.close err => Extension.onClose st err

/-- Raw result of the protobuf layer under codec.js: the four declared
fields of the dxos.protocol.Request schema. -/
structure RawRequest where
  id : Option Bytes
  data : Bytes
  options : Bytes
  error : Option Bytes

/-- The external pieces codec.js builds on, modelled as oracles: the
protobuf decode (none models a throw) and the JSON parses of the data,
options and error fields (none models a parse throw). -/
structure CodecBackend where
  decodeRaw : Bytes → Option RawRequest
  parseData : Bytes → Option JsData
  parseOptions : Bytes → Option EnvOptions
  parseErrObj : Bytes → Option ErrObj

/-- Codec.decode of codec.js: protobuf decode, then JSON parse of the
data (unless in binary mode), options and error fields; the whole body is
wrapped in try/catch, any failure returning the empty envelope. -/
def Codec.decode (be : CodecBackend) (binary : Bool) (buffer : Bytes) : Envelope :=
  match be.decodeRaw buffer with
  | none => Envelope.empty
  | some raw =>
    let dataVal : Option JsData :=
      if binary then some (JsData.buffer raw.data) else be.parseData raw.data
    match dataVal, be.parseOptions raw.options with
    | some d, some o =>
      match raw.error with
      | none => { id := raw.id, data := d, error := none, options := some o }
      | some eb =>
        match be.parseErrObj eb with
        | none => Envelope.empty
        | some e => { id := raw.id, data := d, error := some e, options := some o }
    | _, _ => Envelope.empty

/-- References to JS heap objects. -/
abbrev Ref := Nat

/-- A plain JS object used as a context map: own enumerable fields. -/
abbrev JsObject := List (String × String)

/-- A tiny JS heap: a fresh-reference counter and the allocated objects. -/
structure Heap where
  next : Ref
  entries : List (Ref × JsObject)

/-- Read the fields of the object a reference points to. -/
def Heap.read (h : Heap) (r : Ref) : Option JsObject :=
  (h.entries.find? (fun p => p.1 == r)).map (fun p => p.2)

/-- Mutate the object a reference points to (field assignment on the
caller side of setContext). -/
def Heap.write (h : Heap) (r : Ref) (o : JsObject) : Heap :=
  { h with entries := h.entries.map (fun p => if p.1 == r then (r, o) else p) }

/-- Allocate a fresh object holding the given fields. -/
def Heap.alloc (h : Heap) (o : JsObject) : Heap × Ref :=
  ({ next := h.next + 1, entries := (h.next, o) :: h.entries }, h.next)

/-- Well-formed heap: every allocated reference is below the counter. -/
def Heap.WF (h : Heap) : Prop :=
  ∀ p ∈ h.entries, p.1 < h.next

/-- The state of a Protocol session relevant to the session claims: the
once-only init flag, the reference held in the context field, and the
registered extension names in insertion order (the JS Map keys). -/
structure ProtocolModel where
  initCalled : Bool
  contextRef : Ref
  extensionNames : List String
deriving DecidableEq

/-- Protocol.setContext: this._context = Object.assign({}, context), a
fresh object holding a copy of the supplied map entries. -/
def Protocol.setContext (p : ProtocolModel) (h : Heap) (r : Ref) : ProtocolModel × Heap :=
  let src := (h.read r).getD []
  let hr := h.alloc src
  ({ p with contextRef := hr.2 }, hr.1)

/-- Protocol.getContext returns this._context; reading its fields goes
through the heap. -/
def Protocol.getContext (p : ProtocolModel) (h : Heap) : Option JsObject :=
  h.read p.contextRef

/-- Protocol.init begins with assert(!this._init) and then sets the flag;
a second call on the same session fails the assertion (modelled as an
error result). Both revisions of protocol.js carry this assert. -/
def Protocol.init (p : ProtocolModel) : Except String ProtocolModel :=
  if p.initCalled then Except.error "AssertionError: !this._init"
  else Except.ok { p with initCalled := true }

/-- The fixed name of the built-in init extension. -/
def extensionInitName : String := "dxos.protocol.init"

/-- The JS Array sort on extension names (lexicographic on the names the
protocol uses, which are ASCII). -/
def sortExtensionNames (names : List String) : List String :=
  List.mergeSort names

/-- The advertised extension-name list pushed onto the transport during
Protocol.init: the init extension name first, then every registered name
in insertion order, then sorted. -/
def Protocol.advertisedExtensions (p : ProtocolModel) : List String :=
  sortExtensionNames (extensionInitName :: p.extensionNames)

/-- Frames the two init-gate extensions exchange: the three ASCII tokens
of the mini-protocol plus the automatic response (ack) the Extension
runtime sends back for each non-oneway token. -/
inductive GateToken where
  | valid
  | invalid
  | destroyTok
  | ack
deriving DecidableEq

/-- Progress of one side of the init handshake sequence of protocol.js:
start = running the extension onInit hooks; waitAck = sent the valid
token, awaiting its response; waitSignal = response arrived before any
remote token, awaiting the remote signal; brokeWaitAck = onInit failed,
sent the invalid token, awaiting its response; fired = the gate passed,
the user handshake callbacks and every extension onHandshake ran and the
handshake event was emitted; aborted = the sequence ended without the
handshake event. -/
inductive GatePhase where
  | start
  | waitAck
  | waitSignal
  | brokeWaitAck
  | fired
  | aborted
deriving DecidableEq

/-- One side of a session pair during the init gate. initsOk is true iff
every registered extension onInit hook on this side succeeds; remoteInit
is the _remoteInit field of its ExtensionInit; destroyed is the stream
destroyed flag; closeHandled records whether the end-of-stream close
handler ran. -/
structure Side where
  initsOk : Bool
  phase : GatePhase
  remoteInit : Option Bool
  destroyed : Bool
  closeHandled : Bool
deriving DecidableEq

/-- One step of a single side, given its inbox and outbox queues.
The transitions follow protocol.js (handshake sequence) and
extension-init.js (validate, invalidate, message and close handlers):

- from start, a side whose onInit hooks all succeed sends the valid
  token (validate) and waits for its response; one with a failing hook
  runs invalidate, which returns at once when a remote token already
  arrived, else sends the invalid token; a destroyed stream makes the
  sequence return silently;
- incoming tokens are handled by the ExtensionInit message handler:
  valid and invalid record the remote result and get the automatic
  response of the runtime; destroyTok destroys the stream; a response
  token resumes the waiting validate or invalidate call;
- a resumed or signalled validate returns the recorded remote result:
  true fires the handshake hooks and event, false makes the sequence
  throw, run invalidate (which returns at once, the remote result being
  known) and destroy the stream. -/
inductive LocalStep : Side → List GateToken → List GateToken →
    Side → List GateToken → List GateToken → Prop where
  | startOk (s : Side) (inq outq : List GateToken)
      (hp : s.phase = GatePhase.start) (hd : s.destroyed = false) (hi : s.initsOk = true) :
      LocalStep s inq outq
        { s with phase := GatePhase.waitAck } inq (outq ++ [GateToken.valid])
  | startFailEarly (s : Side) (inq outq : List GateToken)
      (hp : s.phase = GatePhase.start) (hd : s.destroyed = false) (hi : s.initsOk = false)
      (hr : s.remoteInit ≠ none) :
      LocalStep s inq outq
        { s with phase := GatePhase.aborted, destroyed := true } inq outq
  | startFailSend (s : Side) (inq outq : List GateToken)
      (hp : s.phase = GatePhase.start) (hd : s.destroyed = false) (hi : s.initsOk = false)
      (hr : s.remoteInit = none) :
      LocalStep s inq outq
        { s with phase := GatePhase.brokeWaitAck } inq (outq ++ [GateToken.invalid])
  | startDestroyed (s : Side) (inq outq : List GateToken)
      (hp : s.phase = GatePhase.start) (hd : s.destroyed = true) :
      LocalStep s inq outq { s with phase := GatePhase.aborted } inq outq
  | deliverDrop (s : Side) (t : GateToken) (rest outq : List GateToken)
      (hd : s.destroyed = true) :
      LocalStep s (t :: rest) outq s rest outq
  | deliverValid (s : Side) (rest outq : List GateToken)
      (hd : s.destroyed = false) :
      LocalStep s (GateToken.valid :: rest) outq
        { s with remoteInit := some true } rest (outq ++ [GateToken.ack])
  | deliverInvalid (s : Side) (rest outq : List GateToken)
      (hd : s.destroyed = false) :
      LocalStep s (GateToken.invalid :: rest) outq
        { s with remoteInit := some false } rest (outq ++ [GateToken.ack])
  | deliverDestroy (s : Side) (rest outq : List GateToken)
      (hd : s.destroyed = false) :
      LocalStep s (GateToken.destroyTok :: rest) outq
        { s with destroyed := true } rest outq
  | deliverAckWaitTrue (s : Side) (rest outq : List GateToken)
      (hd : s.destroyed = false) (hp : s.phase = GatePhase.waitAck)
      (hr : s.remoteInit = some true) :
      LocalStep s (GateToken.ack :: rest) outq
        { s with phase := GatePhase.fired } rest outq
  | deliverAckWaitFalse (s : Side) (rest outq : List GateToken)
      (hd : s.destroyed = false) (hp : s.phase = GatePhase.waitAck)
      (hr : s.remoteInit = some false) :
      LocalStep s (GateToken.ack :: rest) outq
        { s with phase := GatePhase.aborted, destroyed := true } rest outq
  | deliverAckWaitNone (s : Side) (rest outq : List GateToken)
      (hd : s.destroyed = false) (hp : s.phase = GatePhase.waitAck)
      (hr : s.remoteInit = none) :
      LocalStep s (GateToken.ack :: rest) outq
        { s with phase := GatePhase.waitSignal } rest outq
  | deliverAckBroke (s : Side) (rest outq : List GateToken)
      (hd : s.destroyed = false) (hp : s.phase = GatePhase.brokeWaitAck) :
      LocalStep s (GateToken.ack :: rest) outq
        { s with phase := GatePhase.aborted, destroyed := true } rest
        (outq ++ [GateToken.destroyTok])
  | deliverAckOther (s : Side) (rest outq : List GateToken)
      (hd : s.destroyed = false) (hp1 : s.phase ≠ GatePhase.waitAck)
      (hp2 : s.phase ≠ GatePhase.brokeWaitAck) :
      LocalStep s (GateToken.ack :: rest) outq s rest outq
  | wakeTrue (s : Side) (inq outq : List GateToken)
      (hp : s.phase = GatePhase.waitSignal) (hr : s.remoteInit = some true)
      (hd : s.destroyed = false) :
      LocalStep s inq outq { s with phase := GatePhase.fired } inq outq
  | wakeTrueDestroyed (s : Side) (inq outq : List GateToken)
      (hp : s.phase = GatePhase.waitSignal) (hr : s.remoteInit = some true)
      (hd : s.destroyed = true) :
      LocalStep s inq outq { s with phase := GatePhase.aborted } inq outq
  | wakeFalse (s : Side) (inq outq : List GateToken)
      (hp : s.phase = GatePhase.waitSignal) (hr : s.remoteInit = some false) :
      LocalStep s inq outq
        { s with phase := GatePhase.aborted, destroyed := true } inq outq

/-- The two connected sessions and the frames in flight between them. -/
structure Net where
  a : Side
  b : Side
  ab : List GateToken
  ba : List GateToken
deriving DecidableEq

/-- One step of the pair: either side takes a local step, or the
end-of-stream close handler of a side runs once either stream was
destroyed (destroying one end of the pumped pipe tears down both); the
ExtensionInit close handler records the remote result as false. -/
inductive NetStep : Net → Net → Prop where
  | stepA (n : Net) (s : Side) (inq outq : List GateToken)
      (h : LocalStep n.a n.ba n.ab s inq outq) :
      NetStep n { a := s, b := n.b, ab := outq, ba := inq }
  | stepB (n : Net) (s : Side) (inq outq : List GateToken)
      (h : LocalStep n.b n.ab n.ba s inq outq) :
      NetStep n { a := n.a, b := s, ab := inq, ba := outq }
  | closeA (n : Net) (hd : n.a.destroyed = true ∨ n.b.destroyed = true)
      (hh : n.a.closeHandled = false) :
      NetStep n { n with
        a := { n.a with closeHandled := true, remoteInit := some false, destroyed := true } }
  | closeB (n : Net) (hd : n.a.destroyed = true ∨ n.b.destroyed = true)
      (hh : n.b.closeHandled = false) :
      NetStep n { n with
        b := { n.b with closeHandled := true, remoteInit := some false, destroyed := true } }

/-- A fresh side whose onInit hooks succeed iff ok. -/
def initSide (ok : Bool) : Side :=
  { initsOk := ok, phase := GatePhase.start, remoteInit := none,
    destroyed := false, closeHandled := false }

/-- The session pair right after the transport handshake, with given
onInit outcomes and nothing in flight. -/
def initNet (ia ib : Bool) : Net :=
  { a := initSide ia, b := initSide ib, ab := [], ba := [] }

/-- Reachability of a pair state during the init gate. -/
def GateReach (ia ib : Bool) (n : Net) : Prop :=
  Relation.ReflTransGen NetStep (initNet ia ib) n

/-- A pair state in which no step is enabled: the run is complete. -/
def Quiescent (n : Net) : Prop := ¬ ∃ m, NetStep n m

/-- Safety facts about one side x with peer y and outbox outq: the valid
token is only ever sent, and the post-gate phases only entered, by a side
whose onInit hooks succeeded; a recorded remote result of true means the
peer onInit hooks succeeded; a fired side recorded true. -/
def SafeSide (x y : Side) (outq : List GateToken) : Prop :=
  ((x.phase = GatePhase.waitAck ∨ x.phase = GatePhase.waitSignal ∨
      x.phase = GatePhase.fired) → x.initsOk = true) ∧
  (GateToken.valid ∈ outq → x.initsOk = true) ∧
  (x.remoteInit = some true → y.initsOk = true) ∧
  (x.phase = GatePhase.fired → y.initsOk = true)

/-- Safety invariant of the pair. -/
def SafeInv (n : Net) : Prop :=
  SafeSide n.a n.b n.ab ∧ SafeSide n.b n.a n.ba

/-- Expected channel content from x to y when both sides init cleanly:
the valid token is in flight iff x sent it (left start) and y has not yet
recorded it; the response token is in flight iff x recorded the peer
token (and responded) while y still awaits the response. -/
def validFlag (x y : Side) : Bool :=
  decide (x.phase ≠ GatePhase.start) && decide (y.remoteInit = none)

/-- Response-token-in-flight flag for the channel from x to y. -/
def ackFlag (x y : Side) : Bool :=
  decide (x.remoteInit = some true) && decide (y.phase = GatePhase.waitAck)

/-- The tokens a clean-run channel holds for given flag values: the
valid token and the response token when in flight, in either send
order. -/
def ChanShape (bv ba : Bool) (q : List GateToken) : Prop :=
  match bv, ba with
  | false, false => q = []
  | true, false => q = [GateToken.valid]
  | false, true => q = [GateToken.ack]
  | true, true => q = [GateToken.valid, GateToken.ack] ∨
      q = [GateToken.ack, GateToken.valid]

/-- The channel from x to y holds exactly the tokens the flags demand, in
one of the two send orders. -/
def LiveChan (x y : Side) (q : List GateToken) : Prop :=
  ChanShape (validFlag x y) (ackFlag x y) q

/-- Per-side invariant of clean runs (both sides init successfully): no
stream is destroyed, no break path is taken, remote results are only ever
recorded as true, and the post-gate phases imply the matching facts about
the peer. -/
def LiveSide (x y : Side) : Prop :=
  x.initsOk = true ∧ x.destroyed = false ∧ x.closeHandled = false ∧
  (x.phase = GatePhase.start ∨ x.phase = GatePhase.waitAck ∨
    x.phase = GatePhase.waitSignal ∨ x.phase = GatePhase.fired) ∧
  (x.remoteInit = none ∨ x.remoteInit = some true) ∧
  (x.remoteInit = some true → y.phase ≠ GatePhase.start) ∧
  ((x.phase = GatePhase.waitSignal ∨ x.phase = GatePhase.fired) →
    y.remoteInit = some true) ∧
  (x.phase = GatePhase.fired → x.remoteInit = some true)

/-- Invariant of clean runs for the pair. -/
def LiveInv (n : Net) : Prop :=
  LiveSide n.a n.b ∧ LiveSide n.b n.a ∧
  LiveChan n.a n.b n.ab ∧ LiveChan n.b n.a n.ba

/-- A side that advertised valid and awaits the response. -/
def waitAckSide : Side :=
  { initsOk := true, phase := GatePhase.waitAck, remoteInit := none,
    destroyed := false, closeHandled := false }

/-- A side awaiting the response that already recorded the peer valid. -/
def recvdSide : Side :=
  { initsOk := true, phase := GatePhase.waitAck, remoteInit := some true,
    destroyed := false, closeHandled := false }

/-- A side whose gate passed: its handshake hooks ran. -/
def firedSide : Side :=
  { initsOk := true, phase := GatePhase.fired, remoteInit := some true,
    destroyed := false, closeHandled := false }

/-- The completed clean run of the init gate: both sides fired, nothing
in flight. -/
def gateNetFinal : Net :=
  { a := firedSide, b := firedSide, ab := [], ba := [] }

/-- Effects of an onMessage result; a crashed call produced none. -/
def effectsOfMsg : Except JsCrash (ExtState × List Effect) → List Effect
  | Except.ok r => r.2
  | Except.error _ => []

/-- Whether an effect writes a frame to the transport. -/
def Effect.isWrite : Effect → Bool
  | Effect.writeFrame _ => true
  | _ => false

/-- A fresh Extension state with no handler installed and the default
timeout of 2000 ms. -/
def extDemo0 : ExtState :=
  { pending := [], calls := [], statsSend := 0, statsReceive := 0,
    statsError := 0, timeoutMs := 2000, messageHandler := none,
    closeHandler := false }

/-- The demo state after one non-oneway send with id byte 0. -/
def extDemoSent : ExtState :=
  (extStep extDemo0 (ExtEvent.sendReq [0] (JsData.obj "m") false)).1

/-- The demo state after that send and its timer firing. -/
def extDemoSendTimer : ExtState :=
  (extStep extDemoSent (ExtEvent.timer 0)).1

/-- A response envelope for the demo send, arriving after expiry. -/
def lateResponseEnv : Envelope :=
  { id := some [0], data := JsData.obj "resp", error := none, options := none }

/-- The demo state and effects after the late response is received. -/
def extDemoLate : ExtState × List Effect :=
  extStep extDemoSendTimer (ExtEvent.recv lateResponseEnv)

/-- A codec backend on which the protobuf decode always throws,
standing for input that is not a valid encoding. -/
def badBackend : CodecBackend :=
  { decodeRaw := fun _ => none, parseData := fun _ => none,
    parseOptions := fun _ => none, parseErrObj := fun _ => none }

/-- A handler that throws a plain Error with the given message for every
request, as in the remote-exception test scenario. -/
def throwingHandler (message : String) : MessageHandler :=
  fun _ _ => HandlerOutcome.throwErr
    { protocolErr := false, code := "", message := message }

/-- A fresh Extension state with the given message handler installed. -/
def extWithHandler (h : MessageHandler) : ExtState :=
  { extDemo0 with messageHandler := some h }

/-- An incoming request envelope used in concrete runs. -/
def noHandlerEnv : Envelope :=
  { id := some [5], data := JsData.obj "x", error := none, options := none }

/-- A concrete session that registered chess then auth. -/
def sessChessAuth : ProtocolModel :=
  { initCalled := false, contextRef := 0, extensionNames := ["chess", "auth"] }

/-- A concrete session that registered auth then chess. -/
def sessAuthChess : ProtocolModel :=
  { initCalled := false, contextRef := 0, extensionNames := ["auth", "chess"] }

/-- A concrete one-object heap for the context claims. -/
def demoHeap : Heap :=
  { next := 1, entries := [(0, [("k", "v")])] }

/-- Finding a key in the map after deleting it fails. -/
theorem find?_filter_ne (m : List (String × Nat)) (k : String) :
    (m.filter (fun p => p.1 != k)).find? (fun p => p.1 == k) = none := by
  induction m with
  | nil => rfl
  | cons p rest ih =>
    by_cases h : p.1 = k
    · simp [List.filter_cons, h, ih]
    · simp [List.filter_cons, h, List.find?_cons, ih]

/-- JS Map delete removes the binding. -/
theorem mapGet_mapDelete (m : List (String × Nat)) (k : String) :
    mapGet (mapDelete m k) k = none := by
  simp [mapGet, mapDelete, find?_filter_ne]

/-- JS Map set followed by get returns the stored value (replace case). -/
theorem mapGet_map_replace (m : List (String × Nat)) (k : String) (v : Nat)
    (h : (m.find? (fun p => p.1 == k)).isSome) :
    mapGet (m.map (fun p => if p.1 == k then (k, v) else p)) k = some v := by
  induction m with
  | nil => rw [List.find?_nil] at h; simp at h
  | cons p rest ih =>
    by_cases hp : p.1 = k
    · simp [mapGet, List.find?_cons, hp]
    · rw [List.find?_cons_of_neg _ (by simpa using hp)] at h
      have hrec := ih h
      unfold mapGet at hrec ⊢
      simp only [List.map_cons]
      rw [List.find?_cons_of_neg _ (by simp [hp])]
      exact hrec

/-- JS Map set followed by get returns the stored value (append case). -/
theorem mapGet_append_new (m : List (String × Nat)) (k : String) (v : Nat)
    (h : m.find? (fun p => p.1 == k) = none) :
    mapGet (m ++ [(k, v)]) k = some v := by
  induction m with
  | nil => simp [mapGet, List.find?_cons]
  | cons p rest ih =>
    by_cases hp : p.1 = k
    · exfalso
      rw [List.find?_cons_of_pos _ (by simpa using hp)] at h
      simp at h
    · rw [List.find?_cons_of_neg _ (by simpa using hp)] at h
      have hrec := ih h
      unfold mapGet at hrec ⊢
      rw [List.cons_append, List.find?_cons_of_neg _ (by simpa using hp)]
      exact hrec

/-- JS Map set followed by get returns the stored value. -/
theorem mapGet_mapSet (m : List (String × Nat)) (k : String) (v : Nat) :
    mapGet (mapSet m k v) k = some v := by
  unfold mapSet
  by_cases h : (m.find? (fun p => p.1 == k)).isSome
  · simpa [h] using mapGet_map_replace m k v h
  · have h2 : m.find? (fun p => p.1 == k) = none := by
      cases hf : m.find? (fun p => p.1 == k) with
      | none => rfl
      | some q => rw [hf] at h; simp at h
    simpa [h] using mapGet_append_new m k v h2

/-- The sender callback never touches the pending map. -/
theorem handleSenderCallback_pending (st : ExtState) (i : Nat) (resp : JsData)
    (err : Option ErrObj) :
    (Extension.handleSenderCallback st i resp err).1.pending = st.pending := by
  unfold Extension.handleSenderCallback
  cases h : st.calls.get? i with
  | none => rfl
  | some c =>
    cases err with
    | some e => simp [updCall]
    | none =>
      by_cases he : c.expired
      · simp [updCall, he]
      · simp [updCall, he]

/-- The sender callback never writes a frame. -/
theorem handleSenderCallback_no_write (st : ExtState) (i : Nat) (resp : JsData)
    (err : Option ErrObj) :
    ∀ f ∈ (Extension.handleSenderCallback st i resp err).2, f.isWrite = false := by
  unfold Extension.handleSenderCallback
  cases h : st.calls.get? i with
  | none => simp
  | some c =>
    cases err with
    | some e => simp [Effect.isWrite]
    | none =>
      by_cases he : c.expired
      · simp [he, Effect.isWrite]
      · simp [he, Effect.isWrite]

/-- Claim C3: when a user message handler throws on an incoming
non-oneway request, the Extension responds with an envelope carrying the
request id and an error object whose code is the thrown code for a
ProtocolError and ERR_SYSTEM otherwise, and whose message is the thrown
message; on a oneway request nothing is sent even on throw. -/
theorem handler_throw_error_response (st : ExtState) (env : Envelope) (id : Bytes)
    (h : MessageHandler) (e : ThrownError)
    (hid : env.id = some id)
    (hpend : mapGet st.pending (bytesToHex id) = none)
    (hh : st.messageHandler = some h)
    (hthrow : h env.data (env.options.getD { oneway := false }) = HandlerOutcome.throwErr e) :
    Extension.onMessage st env =
      (if (env.options.getD { oneway := false }).oneway then Except.ok (st, [])
       else Except.ok (st, [Effect.writeFrame
        { id := some id, data := JsData.undef,
          error := some { code := some (if e.protocolErr then e.code else "ERR_SYSTEM"),
                          message := some e.message },
          options := none }])) := by
  simp only [Extension.onMessage, hid, hpend, hh, hthrow]

/-- Witness for claim C3 at a concrete throwing handler and request. -/
theorem handler_throw_error_response_witness :
    Extension.onMessage (extWithHandler (throwingHandler "Invalid data."))
      { id := some [7], data := JsData.buffer [1], error := none,
        options := some { oneway := false } } =
      Except.ok (extWithHandler (throwingHandler "Invalid data."),
        [Effect.writeFrame
          { id := some [7], data := JsData.undef,
            error := some { code := some "ERR_SYSTEM", message := some "Invalid data." },
            options := none }]) := by
  have h := handler_throw_error_response
    (extWithHandler (throwingHandler "Invalid data."))
    { id := some [7], data := JsData.buffer [1], error := none,
      options := some { oneway := false } }
    [7] (throwingHandler "Invalid data.")
    { protocolErr := false, code := "", message := "Invalid data." }
    rfl rfl rfl rfl
  simpa using h

/-- The receiver never writes a frame in reaction to an envelope whose
options mark it oneway, whatever its state. -/
theorem onMessage_oneway_no_write (recvSt : ExtState) (env : Envelope)
    (henv : env.options = some { oneway := true }) :
    ∀ f ∈ effectsOfMsg (Extension.onMessage recvSt env), f.isWrite = false := by
  unfold Extension.onMessage
  cases hid : env.id with
  | none => simp [effectsOfMsg]
  | some id2 =>
    cases hp : mapGet recvSt.pending (bytesToHex id2) with
    | some i =>
      simp only [hp, effectsOfMsg]
      exact handleSenderCallback_no_write _ i env.data env.error
    | none =>
      simp only [hp]
      cases hh : recvSt.messageHandler with
      | none => simp [effectsOfMsg, Effect.isWrite]
      | some handler =>
        simp only [hh, henv, Option.getD_some]
        cases hout : handler env.data { oneway := true } with
        | ok ret => simp [hout, effectsOfMsg]
        | throwErr e => simp [hout, effectsOfMsg]

/-- Claim C5: a oneway send registers no pending entry and no call
record, and resolves at once to undefined; and a receiver never writes a
response frame for an envelope whose options mark it oneway. -/
theorem oneway_no_pending_no_response (st recvSt : ExtState) (id : Bytes) (msg : JsData)
    (env : Envelope) (henv : env.options = some { oneway := true }) :
    (Extension.send st id msg true).1.pending = st.pending ∧
    (Extension.send st id msg true).1.calls = st.calls ∧
    (Extension.send st id msg true).2.2 = SendOutcome.resolvedUndefined ∧
    ∀ f ∈ effectsOfMsg (Extension.onMessage recvSt env), f.isWrite = false :=
  ⟨by simp [Extension.send], by simp [Extension.send], by simp [Extension.send],
    onMessage_oneway_no_write recvSt env henv⟩

/-- Witness for claim C5 at a concrete oneway send and incoming oneway
request. -/
theorem oneway_no_pending_no_response_witness :
    (Extension.send extDemo0 [9] (JsData.buffer [2]) true).1.pending = extDemo0.pending ∧
    (Extension.send extDemo0 [9] (JsData.buffer [2]) true).1.calls = extDemo0.calls ∧
    (Extension.send extDemo0 [9] (JsData.buffer [2]) true).2.2 = SendOutcome.resolvedUndefined ∧
    ∀ f ∈ effectsOfMsg (Extension.onMessage extDemo0
      { id := some [9], data := JsData.buffer [2], error := none,
        options := some { oneway := true } }), f.isWrite = false :=
  oneway_no_pending_no_response extDemo0 extDemo0 [9] (JsData.buffer [2])
    { id := some [9], data := JsData.buffer [2], error := none,
      options := some { oneway := true } } rfl

/-- Claim C7, amended: bytes the protobuf layer rejects decode to the
empty envelope without throwing, but the Extension then crashes with a
TypeError reading the hex of the absent id instead of dropping the frame
with a warning. -/
theorem invalid_bytes_empty_envelope_crash (be : CodecBackend) (binary : Bool)
    (buffer : Bytes) (st : ExtState) (hfail : be.decodeRaw buffer = none) :
    Codec.decode be binary buffer = Envelope.empty ∧
    Extension.onMessage st (Codec.decode be binary buffer) =
      Except.error (JsCrash.typeError "Cannot read property toString of undefined") := by
  have hdec : Codec.decode be binary buffer = Envelope.empty := by
    simp [Codec.decode, hfail]
  exact ⟨hdec, by rw [hdec]; rfl⟩

/-- Witness for the amended claim C7 at a concrete backend and input. -/
theorem invalid_bytes_empty_envelope_crash_witness :
    Codec.decode badBackend false [1, 2, 3] = Envelope.empty ∧
    Extension.onMessage extDemo0 (Codec.decode badBackend false [1, 2, 3]) =
      Except.error (JsCrash.typeError "Cannot read property toString of undefined") :=
  invalid_bytes_empty_envelope_crash badBackend false [1, 2, 3] extDemo0 rfl

/-- Counterexample to claim C7 as stated: on concrete invalid bytes the
decode does return the empty envelope, but the receiving Extension does
not drop the frame with a logged warning: onMessage throws a TypeError
and produces no effect at all. -/
theorem empty_envelope_crash_cex :
    Codec.decode badBackend false [3, 1, 4] = Envelope.empty ∧
    Extension.onMessage extDemo0 (Codec.decode badBackend false [3, 1, 4]) =
      Except.error (JsCrash.typeError "Cannot read property toString of undefined") ∧
    effectsOfMsg (Extension.onMessage extDemo0 (Codec.decode badBackend false [3, 1, 4])) = [] :=
  ⟨rfl, rfl, rfl⟩

/-- Claim C8, amended: an incoming envelope matching no pending call,
with no user handler installed, makes the Extension log a warning and
emit a ProtocolError with code ERR_SYSTEM and message No message handler,
dropping the message without responding and without changing state. -/
theorem no_handler_err_system (st : ExtState) (env : Envelope) (id : Bytes)
    (hid : env.id = some id) (hpend : mapGet st.pending (bytesToHex id) = none)
    (hh : st.messageHandler = none) :
    Extension.onMessage st env = Except.ok (st,
      [Effect.consoleWarn "No message handler.",
       Effect.emitErrorEvent "ERR_SYSTEM" (some "No message handler")]) := by
  simp only [Extension.onMessage, hid, hpend, hh]

/-- Witness for the amended claim C8 at a concrete state and envelope. -/
theorem no_handler_err_system_witness :
    Extension.onMessage extDemo0 noHandlerEnv = Except.ok (extDemo0,
      [Effect.consoleWarn "No message handler.",
       Effect.emitErrorEvent "ERR_SYSTEM" (some "No message handler")]) :=
  no_handler_err_system extDemo0 noHandlerEnv [5] rfl rfl rfl

/-- Counterexample to claim C8 as stated: at a concrete unmatched
envelope with no handler installed, the emitted error code is ERR_SYSTEM,
and no effect carries the code ERR_NO_HANDLER. -/
theorem no_handler_code_not_err_no_handler_cex :
    effectsOfMsg (Extension.onMessage extDemo0 noHandlerEnv) =
      [Effect.consoleWarn "No message handler.",
       Effect.emitErrorEvent "ERR_SYSTEM" (some "No message handler")] ∧
    (effectsOfMsg (Extension.onMessage extDemo0 noHandlerEnv)).all
      (fun f => match f with
        | Effect.emitErrorEvent c _ => c != "ERR_NO_HANDLER"
        | _ => true) = true :=
  ⟨rfl, rfl⟩

/-- Claim C9, amended: Session init is once-only, not idempotent: the
first call marks the session started, and a second call on the same
session fails the assertion on the init flag. -/
theorem init_once_only (p : ProtocolModel) (h : p.initCalled = false) :
    Protocol.init p = Except.ok { p with initCalled := true } ∧
    Protocol.init { p with initCalled := true } =
      Except.error "AssertionError: !this._init" := by
  constructor
  · simp [Protocol.init, h]
  · simp [Protocol.init]

/-- Witness for the amended claim C9 at a concrete session. -/
theorem init_once_only_witness :
    Protocol.init { initCalled := false, contextRef := 0, extensionNames := ["x"] } =
      Except.ok { initCalled := true, contextRef := 0, extensionNames := ["x"] } ∧
    Protocol.init { initCalled := true, contextRef := 0, extensionNames := ["x"] } =
      Except.error "AssertionError: !this._init" :=
  init_once_only { initCalled := false, contextRef := 0, extensionNames := ["x"] } rfl

/-- Counterexample to claim C9 as stated: on a concrete session the
second init call does not leave the session started without failing, it
returns the assertion failure. -/
theorem second_init_asserts_cex :
    Protocol.init { initCalled := false, contextRef := 0, extensionNames := [] } =
      Except.ok { initCalled := true, contextRef := 0, extensionNames := [] } ∧
    Protocol.init { initCalled := true, contextRef := 0, extensionNames := [] } =
      Except.error "AssertionError: !this._init" :=
  ⟨rfl, rfl⟩

/-- Claim C10: setContext stores a fresh shallow copy of the supplied
map, so mutating the original object afterwards does not change what
getContext returns. -/
theorem setContext_copies_map (p : ProtocolModel) (h : Heap) (r : Ref) (m m2 : JsObject)
    (hwf : h.WF) (hread : h.read r = some m) :
    Protocol.getContext (Protocol.setContext p h r).1
      (((Protocol.setContext p h r).2).write r m2) = some m := by
  have hr : r < h.next := by
    unfold Heap.read at hread
    cases hfind : h.entries.find? (fun p => p.1 == r) with
    | none => rw [hfind] at hread; simp at hread
    | some q =>
      have hmem := List.mem_of_find?_eq_some hfind
      have hkey := List.find?_some hfind
      have hq : q.1 = r := by simpa using hkey
      have hlt := hwf q hmem
      exact hq ▸ hlt
  have hnr : h.next ≠ r := ne_of_gt hr
  have hsc : Protocol.setContext p h r =
      ({ p with contextRef := h.next },
       { next := h.next + 1, entries := (h.next, m) :: h.entries }) := by
    simp [Protocol.setContext, Heap.alloc, hread]
  rw [hsc]
  unfold Protocol.getContext Heap.write Heap.read
  simp [List.map_cons, hnr, List.find?_cons]

/-- Witness for claim C10 at a concrete heap and maps. -/
theorem setContext_copies_map_witness :
    Protocol.getContext (Protocol.setContext sessChessAuth demoHeap 0).1
      (((Protocol.setContext sessChessAuth demoHeap 0).2).write 0 [("k", "w")]) =
      some [("k", "v")] :=
  setContext_copies_map sessChessAuth demoHeap 0 [("k", "v")] [("k", "w")]
    (by intro p hp; simp [demoHeap] at hp; simp [hp, demoHeap]) rfl

/-- Claim C6: the advertised extension-name list is sorted, is a
permutation of the init extension name plus the registered names, and is
the same for two sessions whose registered name lists are permutations of
each other. -/
theorem advertised_names_sorted_perm_invariant (p q : ProtocolModel)
    (hperm : p.extensionNames.Perm q.extensionNames) :
    List.Sorted (fun a b : String => a ≤ b) (Protocol.advertisedExtensions p) ∧
    (Protocol.advertisedExtensions p).Perm (extensionInitName :: p.extensionNames) ∧
    Protocol.advertisedExtensions p = Protocol.advertisedExtensions q := by
  refine ⟨List.sorted_mergeSort' _, List.mergeSort_perm _ _, ?_⟩
  exact List.eq_of_perm_of_sorted
    ((List.mergeSort_perm _ _).trans ((hperm.cons _).trans (List.mergeSort_perm _ _).symm))
    (List.sorted_mergeSort' _) (List.sorted_mergeSort' _)

/-- Element lookup after a list set. -/
theorem get?_set_list (l : List CallState) (i j : Nat) (c : CallState) :
    (l.set j c).get? i = if j = i ∧ j < l.length then some c else l.get? i := by
  simp only [List.get?_eq_getElem?, List.getElem?_set]
  by_cases h : j = i
  · subst h
    by_cases hl : j < l.length
    · simp [hl]
    · simp [hl]
      omega
  · simp [h]

/-- A settled promise keeps its first settlement. -/
theorem settle_keeps (c : CallState) (v w : SettleVal) (h : c.settled = some v) :
    (CallState.settle c w).settled = some v := by
  unfold CallState.settle
  rw [h]
  exact h

/-- Appending to the call list does not move earlier records. -/
theorem get?_append_left (l l2 : List CallState) (i : Nat) (h : i < l.length) :
    (l ++ l2).get? i = l.get? i := by
  simp [List.get?_eq_getElem?, List.getElem?_append, h]

/-- The call list a non-oneway send produces: the old records plus the
fresh one. -/
theorem send_calls (st : ExtState) (id : Bytes) (msg : JsData) :
    (Extension.send st id msg false).1.calls = st.calls ++
      [{ idHex := bytesToHex id, done := false, expired := false, settled := none,
         timerArmed := st.timeoutMs != 0 }] := by
  simp [Extension.send]

/-- A oneway send does not touch the call list. -/
theorem send_true_calls (st : ExtState) (id : Bytes) (msg : JsData) :
    (Extension.send st id msg true).1.calls = st.calls := by
  simp [Extension.send]

/-- An index into the call list is below its length. -/
theorem get?_lt_len (l : List CallState) (i : Nat) (c : CallState)
    (h : l.get? i = some c) : i < l.length := by
  rw [List.get?_eq_getElem?] at h
  exact (List.getElem?_eq_some.mp h).1

/-- Replacing one call record never unsettles a settled promise, as long
as the replacement keeps the settlement of the record it overwrites. -/
theorem updCall_settled_mono (st : ExtState) (i j : Nat) (c : CallState) (v : SettleVal)
    (h : (st.calls.get? i).map CallState.settled = some (some v))
    (hc : ∀ cj, st.calls.get? j = some cj → cj.settled = some v → c.settled = some v) :
    ((updCall st j c).calls.get? i).map CallState.settled = some (some v) := by
  unfold updCall
  show ((st.calls.set j c).get? i).map CallState.settled = some (some v)
  rw [get?_set_list]
  by_cases hij : j = i
  · subst hij
    cases hcj : st.calls.get? j with
    | none => rw [hcj] at h; simp at h
    | some cj =>
      have hlen : j < st.calls.length := get?_lt_len st.calls j cj hcj
      have hs : cj.settled = some v := by rw [hcj] at h; simpa using h
      simp [hlen, hc cj hcj hs]
  · rw [if_neg (by simp [hij])]
    exact h

/-- The sender callback never unsettles a settled promise. -/
theorem handleSenderCallback_settled_mono (st : ExtState) (i j : Nat) (resp : JsData)
    (err : Option ErrObj) (v : SettleVal)
    (h : (st.calls.get? i).map CallState.settled = some (some v)) :
    ((Extension.handleSenderCallback st j resp err).1.calls.get? i).map CallState.settled =
      some (some v) := by
  unfold Extension.handleSenderCallback
  dsimp only
  split
  · exact h
  · rename_i cj hj
    split
    · exact updCall_settled_mono _ i j _ v h (fun cj2 hcj2 hs => by
        have hcj2b : st.calls.get? j = some cj2 := hcj2
        rw [hj] at hcj2b
        injection hcj2b with he
        rw [← he] at hs
        exact settle_keeps { cj with done := true } v _ hs)
    · split
      · exact updCall_settled_mono _ i j _ v h (fun cj2 hcj2 hs => by
          have hcj2b : st.calls.get? j = some cj2 := hcj2
          rw [hj] at hcj2b
          injection hcj2b with he
          rw [← he] at hs
          exact hs)
      · exact updCall_settled_mono _ i j _ v h (fun cj2 hcj2 hs => by
          have hcj2b : st.calls.get? j = some cj2 := hcj2
          rw [hj] at hcj2b
          injection hcj2b with he
          rw [← he] at hs
          exact settle_keeps { cj with done := true } v _ hs)

/-- The timer never unsettles a settled promise. -/
theorem timerFire_settled_mono (st : ExtState) (i j : Nat) (v : SettleVal)
    (h : (st.calls.get? i).map CallState.settled = some (some v)) :
    ((Extension.timerFire st j).1.calls.get? i).map CallState.settled = some (some v) := by
  unfold Extension.timerFire
  dsimp only
  split
  · exact h
  · rename_i cj hj
    split
    · exact h
    · exact updCall_settled_mono _ i j _ v h (fun cj2 hcj2 hs => by
        have hcj2b : st.calls.get? j = some cj2 := hcj2
        rw [hj] at hcj2b
        injection hcj2b with he
        rw [← he] at hs
        exact settle_keeps { cj with expired := true } v _ hs)

/-- Claim C1, amended: the entry a non-oneway send installs under the hex
of its id stays in the pending map until the first envelope bearing that
id arrives, which removes it; neither the timer nor the Extension close
event removes it (close leaves the whole state untouched); and the
promise of a call settles at most once, no step, close included,
replacing an existing settlement. -/
theorem pending_call_lifecycle (st : ExtState) (i : Nat) (v : SettleVal) (e : ExtEvent) :
    (((st.calls.get? i).map CallState.settled = some (some v)) →
      ((extStep st e).1.calls.get? i).map CallState.settled = some (some v)) ∧
    (∀ j, (Extension.timerFire st j).1.pending = st.pending) ∧
    (∀ err, (Extension.onClose st err).1 = st) ∧
    (∀ id env r, env.id = some id → mapGet st.pending (bytesToHex id) = some i →
      Extension.onMessage st env = Except.ok r →
      mapGet r.1.pending (bytesToHex id) = none) ∧
    (∀ id msg, mapGet (Extension.send st id msg false).1.pending (bytesToHex id) =
      some st.calls.length) := by
  refine ⟨?_, ?_, ?_, ?_, ?_⟩
  · intro h
    cases e with
    | sendReq id msg ow =>
      have hlen : i < st.calls.length := by
        cases hc : st.calls.get? i with
        | none => rw [hc] at h; simp at h
        | some c => exact get?_lt_len st.calls i c hc
      cases ow with
      | true =>
        show ((Extension.send st id msg true).1.calls.get? i).map CallState.settled =
          some (some v)
        rw [send_true_calls]
        exact h
      | false =>
        show ((Extension.send st id msg false).1.calls.get? i).map CallState.settled =
          some (some v)
        rw [send_calls, get?_append_left _ _ _ hlen]
        exact h
    | timer j => exact timerFire_settled_mono st i j v h
    | recv env =>
      show ((match Extension.onMessage st env with
        | Except.ok r => r
        | Except.error _ => (st, [])).1.calls.get? i).map CallState.settled = some (some v)
      cases hmsg : Extension.onMessage st env with
      | error c => exact h
      | ok r =>
        unfold Extension.onMessage at hmsg
        dsimp only at hmsg
        split at hmsg
        · exact absurd hmsg (by simp)
        · rename_i id2 hid2
          split at hmsg
          · rename_i k hp
            injection hmsg with hmsg1
            subst hmsg1
            exact handleSenderCallback_settled_mono _ i k env.data env.error v h
          · rename_i hp
            split at hmsg
            · injection hmsg with hmsg1
              subst hmsg1
              exact h
            · rename_i handler hh
              split at hmsg
              · split at hmsg
                · injection hmsg with hmsg1
                  subst hmsg1
                  exact h
                · injection hmsg with hmsg1
                  subst hmsg1
                  exact h
              · split at hmsg
                · injection hmsg with hmsg1
                  subst hmsg1
                  exact h
                · injection hmsg with hmsg1
                  subst hmsg1
                  exact h
    | close err => exact h
  · intro j
    unfold Extension.timerFire
    split
    · rfl
    · rename_i cj hj
      split
      · rfl
      · rfl
  · intro err
    rfl
  · intro id env r hid hp hok
    unfold Extension.onMessage at hok
    rw [hid] at hok
    dsimp only at hok
    split at hok
    · rename_i k hp2
      rw [hp] at hp2
      injection hp2 with hk
      subst hk
      injection hok with hok1
      subst hok1
      rw [handleSenderCallback_pending]
      exact mapGet_mapDelete st.pending (bytesToHex id)
    · rename_i hp2
      rw [hp] at hp2
      cases hp2
  · intro id msg
    simp [Extension.send, mapGet_mapSet]

/-- Witness for the amended claim C1: the settled call of the demo run
keeps its timeout rejection across the next step, the timer left the
entry in place, the close event left the state untouched, the late
response removed the entry, and a fresh send registers its entry. -/
theorem pending_call_lifecycle_witness :
    (((extStep extDemoSendTimer (ExtEvent.timer 0)).1.calls.get? 0).map CallState.settled =
      some (some SettleVal.rejectedTimeout)) ∧
    (Extension.timerFire extDemoSendTimer 0).1.pending = extDemoSendTimer.pending ∧
    (Extension.onClose extDemoSendTimer (some "eos")).1 = extDemoSendTimer ∧
    mapGet extDemoLate.1.pending (bytesToHex [0]) = none ∧
    mapGet (Extension.send extDemoSendTimer [1] (JsData.obj "x") false).1.pending
      (bytesToHex [1]) = some extDemoSendTimer.calls.length :=
  ⟨(pending_call_lifecycle extDemoSendTimer 0 SettleVal.rejectedTimeout
      (ExtEvent.timer 0)).1 (by rfl),
   (pending_call_lifecycle extDemoSendTimer 0 SettleVal.rejectedTimeout
      (ExtEvent.timer 0)).2.1 0,
   (pending_call_lifecycle extDemoSendTimer 0 SettleVal.rejectedTimeout
      (ExtEvent.timer 0)).2.2.1 (some "eos"),
   (pending_call_lifecycle extDemoSendTimer 0 SettleVal.rejectedTimeout
      (ExtEvent.timer 0)).2.2.2.1 [0] lateResponseEnv extDemoLate rfl rfl rfl,
   (pending_call_lifecycle extDemoSendTimer 0 SettleVal.rejectedTimeout
      (ExtEvent.timer 0)).2.2.2.2 [1] (JsData.obj "x")⟩

/-- Counterexample to claim C1 as stated: in the demo run the timeout
fired (the call is expired and its promise rejected with
ERR_REQUEST_TIMEOUT), yet the pending entry keyed by the hex of the id is
still in the table, so the entry does not exist only until the timeout. -/
theorem pending_after_timeout_cex :
    mapGet extDemoSendTimer.pending (bytesToHex [0]) = some 0 ∧
    (extDemoSendTimer.calls.get? 0).map CallState.expired = some true ∧
    (extDemoSendTimer.calls.get? 0).map CallState.settled =
      some (some SettleVal.rejectedTimeout) :=
  ⟨rfl, rfl, rfl⟩

/-- Claim C4, amended: a timer firing before the response marks the call
expired, bumps the error counter and rejects the caller with
ERR_REQUEST_TIMEOUT, leaving the pending entry in place; a response
arriving after expiry is not silent: it removes the entry, bumps the
receive counter, and emits a receive event and an ERR_REQUEST_TIMEOUT
error event, while the promise stays settled as it was. -/
theorem timeout_rejects_then_late_response_counted (st : ExtState) (i : Nat)
    (c : CallState) (id : Bytes) (env : Envelope)
    (hc : st.calls.get? i = some c) :
    (c.done = false → c.settled = none →
      (Extension.timerFire st i).1.calls.get? i =
        some { c with expired := true, settled := some SettleVal.rejectedTimeout } ∧
      (Extension.timerFire st i).1.statsError = st.statsError + 1 ∧
      (Extension.timerFire st i).1.pending = st.pending) ∧
    (env.id = some id → mapGet st.pending (bytesToHex id) = some i →
      env.error = none → c.expired = true →
      Extension.onMessage st env = Except.ok
        ({ st with pending := mapDelete st.pending (bytesToHex id),
                   statsReceive := st.statsReceive + 1,
                   calls := st.calls.set i { c with done := true } },
         [Effect.emitReceiveEvent, Effect.emitErrorEvent "ERR_REQUEST_TIMEOUT" none])) := by
  constructor
  · intro hdone hsettled
    have hlen : i < st.calls.length := get?_lt_len st.calls i c hc
    unfold Extension.timerFire
    rw [hc]
    dsimp only
    rw [if_neg (by simp [hdone])]
    refine ⟨?_, rfl, rfl⟩
    show (st.calls.set i (({ c with expired := true } : CallState).settle
      SettleVal.rejectedTimeout)).get? i = _
    rw [get?_set_list, if_pos ⟨rfl, hlen⟩]
    have hset : ({ c with expired := true } : CallState).settle SettleVal.rejectedTimeout =
        { c with expired := true, settled := some SettleVal.rejectedTimeout } := by
      unfold CallState.settle
      rw [show ({ c with expired := true } : CallState).settled = none from hsettled]
    rw [hset]
  · intro hid hp herr hexp
    unfold Extension.onMessage
    rw [hid]
    dsimp only
    rw [hp]
    dsimp only
    unfold Extension.handleSenderCallback
    dsimp only
    rw [hc]
    dsimp only
    rw [herr]
    dsimp only
    rw [if_pos hexp]
    rfl

/-- Witness for the amended claim C4 at the demo run: the timer rejects
the fresh call, and the late response is counted and re-signalled. -/
theorem timeout_rejects_then_late_response_counted_witness :
    ((Extension.timerFire extDemoSent 0).1.calls.get? 0 =
      some { idHex := bytesToHex [0], done := false, expired := true,
             settled := some SettleVal.rejectedTimeout, timerArmed := true } ∧
     (Extension.timerFire extDemoSent 0).1.statsError = extDemoSent.statsError + 1 ∧
     (Extension.timerFire extDemoSent 0).1.pending = extDemoSent.pending) ∧
    Extension.onMessage extDemoSendTimer lateResponseEnv = Except.ok
      ({ extDemoSendTimer with
          pending := mapDelete extDemoSendTimer.pending (bytesToHex [0]),
          statsReceive := extDemoSendTimer.statsReceive + 1,
          calls := extDemoSendTimer.calls.set 0
            { idHex := bytesToHex [0], done := true, expired := true,
              settled := some SettleVal.rejectedTimeout, timerArmed := true } },
       [Effect.emitReceiveEvent, Effect.emitErrorEvent "ERR_REQUEST_TIMEOUT" none]) :=
  ⟨(timeout_rejects_then_late_response_counted extDemoSent 0
      { idHex := bytesToHex [0], done := false, expired := false, settled := none,
        timerArmed := true } [0] lateResponseEnv rfl).1 rfl rfl,
   (timeout_rejects_then_late_response_counted extDemoSendTimer 0
      { idHex := bytesToHex [0], done := false, expired := true,
        settled := some SettleVal.rejectedTimeout, timerArmed := true } [0]
      lateResponseEnv rfl).2 rfl rfl rfl rfl⟩

/-- Counterexample to claim C4 as stated: the late response in the demo
run is not dropped silently with counters unchanged: the receive counter
moves from 0 to 1 and two events are emitted. -/
theorem late_response_not_silent_cex :
    extDemoSendTimer.statsReceive = 0 ∧
    extDemoLate.1.statsReceive = 1 ∧
    extDemoLate.2 =
      [Effect.emitReceiveEvent, Effect.emitErrorEvent "ERR_REQUEST_TIMEOUT" none] :=
  ⟨rfl, rfl, rfl⟩

/-- Witness for claim C6 at two concrete registration orders. -/
theorem advertised_names_sorted_perm_invariant_witness :
    List.Sorted (fun a b : String => a ≤ b) (Protocol.advertisedExtensions sessChessAuth) ∧
    (Protocol.advertisedExtensions sessChessAuth).Perm
      (extensionInitName :: sessChessAuth.extensionNames) ∧
    Protocol.advertisedExtensions sessChessAuth =
      Protocol.advertisedExtensions sessAuthChess :=
  advertised_names_sorted_perm_invariant sessChessAuth sessAuthChess (by decide)

/-- A local step never changes whether the onInit hooks succeed. -/
theorem localStep_initsOk (x x' : Side) (inq outq inq' outq' : List GateToken)
    (h : LocalStep x inq outq x' inq' outq') : x'.initsOk = x.initsOk := by
  cases h <;> rfl

/-- A local step only ever pops the head of the inbox. -/
theorem localStep_inq_sub (x x' : Side) (inq outq inq' outq' : List GateToken)
    (h : LocalStep x inq outq x' inq' outq') (t : GateToken) (ht : t ∈ inq') : t ∈ inq := by
  cases h <;> simp_all

/-- The safety facts are preserved by every local step. -/
theorem localStep_safe (x y x' : Side) (inq outq inq' outq' : List GateToken)
    (h : LocalStep x inq outq x' inq' outq')
    (hx : SafeSide x y outq) (hy : SafeSide y x inq) :
    SafeSide x' y outq' ∧ SafeSide y x' inq' := by
  obtain ⟨hx1, hx2, hx3, hx4⟩ := hx
  obtain ⟨hy1, hy2, hy3, hy4⟩ := hy
  have hok : x'.initsOk = x.initsOk := localStep_initsOk x x' inq outq inq' outq' h
  have hsub := localStep_inq_sub x x' inq outq inq' outq' h GateToken.valid
  cases h <;>
    exact ⟨⟨by simp_all, by simp_all [List.mem_append], by simp_all, by simp_all⟩,
      ⟨hy1, fun hm => hy2 (hsub hm), by simp_all, by simp_all⟩⟩

/-- The safety facts are preserved by every step of the pair. -/
theorem netStep_safe (n m : Net) (h : NetStep n m) (hinv : SafeInv n) : SafeInv m := by
  obtain ⟨ha, hb⟩ := hinv
  cases h with
  | stepA s inq outq hl =>
    have := localStep_safe n.a n.b s n.ba n.ab inq outq hl ha hb
    exact ⟨this.1, this.2⟩
  | stepB s inq outq hl =>
    have := localStep_safe n.b n.a s n.ab n.ba inq outq hl hb ha
    exact ⟨this.2, this.1⟩
  | closeA hd hh =>
    obtain ⟨ha1, ha2, ha3, ha4⟩ := ha
    obtain ⟨hb1, hb2, hb3, hb4⟩ := hb
    exact ⟨⟨by simp_all, by simp_all, by simp_all, by simp_all⟩,
      ⟨hb1, hb2, by simp_all, by simp_all⟩⟩
  | closeB hd hh =>
    obtain ⟨ha1, ha2, ha3, ha4⟩ := ha
    obtain ⟨hb1, hb2, hb3, hb4⟩ := hb
    exact ⟨⟨ha1, ha2, by simp_all, by simp_all⟩,
      ⟨by simp_all, by simp_all, by simp_all, by simp_all⟩⟩

/-- The fresh pair satisfies the safety facts. -/
theorem safeInv_init (ia ib : Bool) : SafeInv (initNet ia ib) := by
  refine ⟨⟨?_, ?_, ?_, ?_⟩, ⟨?_, ?_, ?_, ?_⟩⟩ <;> simp [initNet, initSide]

/-- Every reachable pair state satisfies the safety facts. -/
theorem safeInv_reach (ia ib : Bool) (n : Net) (h : GateReach ia ib n) : SafeInv n := by
  induction h with
  | refl => exact safeInv_init ia ib
  | tail hr hstep ih => exact netStep_safe _ _ hstep ih

/-- Neither step kind changes the onInit outcomes of the two sides. -/
theorem netStep_initsOk (n m : Net) (h : NetStep n m) :
    m.a.initsOk = n.a.initsOk ∧ m.b.initsOk = n.b.initsOk := by
  cases h with
  | stepA s inq outq hl =>
    exact ⟨localStep_initsOk _ _ _ _ _ _ hl, rfl⟩
  | stepB s inq outq hl =>
    exact ⟨rfl, localStep_initsOk _ _ _ _ _ _ hl⟩
  | closeA hd hh => exact ⟨rfl, rfl⟩
  | closeB hd hh => exact ⟨rfl, rfl⟩

/-- The onInit outcomes of a reachable pair state are the initial ones. -/
theorem initsOk_reach (ia ib : Bool) (n : Net) (h : GateReach ia ib n) :
    n.a.initsOk = ia ∧ n.b.initsOk = ib := by
  induction h with
  | refl => exact ⟨rfl, rfl⟩
  | tail hr hstep ih =>
    have hs := netStep_initsOk _ _ hstep
    exact ⟨hs.1.trans ih.1, hs.2.trans ih.2⟩

/-- Unpack a channel content fact along known flag values. -/
theorem liveChan_flags_elim (x y : Side) (q : List GateToken) (bv ba : Bool)
    (hv : validFlag x y = bv) (ha : ackFlag x y = ba) (h : LiveChan x y q) :
    ChanShape bv ba q := by
  unfold LiveChan at h
  rw [hv, ha] at h
  exact h

/-- Build a channel content fact from known flag values. -/
theorem liveChan_of_flags (x y : Side) (q : List GateToken) (bv ba : Bool)
    (hv : validFlag x y = bv) (ha : ackFlag x y = ba) (hq : ChanShape bv ba q) :
    LiveChan x y q := by
  unfold LiveChan
  rw [hv, ha]
  exact hq

/-- What a true valid flag means. -/
theorem validFlag_true_elim (x y : Side) (h : validFlag x y = true) :
    x.phase ≠ GatePhase.start ∧ y.remoteInit = none := by
  simpa [validFlag] using h

/-- What a true ack flag means. -/
theorem ackFlag_true_elim (x y : Side) (h : ackFlag x y = true) :
    x.remoteInit = some true ∧ y.phase = GatePhase.waitAck := by
  simpa [ackFlag] using h

/-- The head of a live channel is the valid token or a response token,
with the flags and the tail determined. -/
theorem liveChan_head (x y : Side) (t : GateToken) (rest : List GateToken)
    (h : LiveChan x y (t :: rest)) :
    (t = GateToken.valid ∧ validFlag x y = true ∧
      ((rest = [] ∧ ackFlag x y = false) ∨
        (rest = [GateToken.ack] ∧ ackFlag x y = true))) ∨
    (t = GateToken.ack ∧ ackFlag x y = true ∧
      ((rest = [] ∧ validFlag x y = false) ∨
        (rest = [GateToken.valid] ∧ validFlag x y = true))) := by
  unfold LiveChan ChanShape at h
  cases hv : validFlag x y <;> cases ha : ackFlag x y <;> rw [hv, ha] at h
  · simp at h
  · simp at h
    exact Or.inr ⟨h.1, rfl, Or.inl ⟨h.2, rfl⟩⟩
  · simp at h
    exact Or.inl ⟨h.1, rfl, Or.inl ⟨h.2, rfl⟩⟩
  · rcases h with h | h <;> simp at h
    · exact Or.inl ⟨h.1, rfl, Or.inr ⟨h.2, rfl⟩⟩
    · exact Or.inr ⟨h.1, rfl, Or.inr ⟨h.2, rfl⟩⟩

/-- The clean-run invariant is preserved by every local step of a side
whose peer also satisfies it. -/
theorem liveStep_local (x y x' : Side) (inq outq inq' outq' : List GateToken)
    (h : LocalStep x inq outq x' inq' outq')
    (hx : LiveSide x y) (hy : LiveSide y x)
    (hin : LiveChan y x inq) (hout : LiveChan x y outq) :
    LiveSide x' y ∧ LiveSide y x' ∧ LiveChan y x' inq' ∧ LiveChan x' y outq' := by
  obtain ⟨hx1, hx2, hx3, hx4, hx5, hx6, hx7, hx8⟩ := hx
  obtain ⟨hy1, hy2, hy3, hy4, hy5, hy6, hy7, hy8⟩ := hy
  cases h with
  | startOk =>
    rename_i hp hd hi
    have hbr : y.remoteInit = none := by
      rcases hy5 with h5 | h5
      · exact h5
      · exact absurd hp (hy6 h5)
    refine ⟨⟨hx1, hx2, hx3, by simp, hx5, hx6, by simp, by simp⟩,
      ⟨hy1, hy2, hy3, hy4, hy5, fun _ => by simp, hy7, hy8⟩, ?_, ?_⟩
    · cases hS : validFlag y x with
      | false =>
        exact liveChan_of_flags _ _ _ false false hS (by simp [ackFlag, hbr])
          (liveChan_flags_elim y x _ false false hS (by simp [ackFlag, hbr]) hin)
      | true =>
        exact liveChan_of_flags _ _ _ true false hS (by simp [ackFlag, hbr])
          (liveChan_flags_elim y x _ true false hS (by simp [ackFlag, hbr]) hin)
    · have hvold : validFlag x y = false := by simp [validFlag, hp]
      cases hA : ackFlag x y with
      | false =>
        have hq := liveChan_flags_elim x y _ false false hvold hA hout
        exact liveChan_of_flags _ _ _ true false (by simp [validFlag, hbr]) hA
          (by simp [ChanShape] at hq ⊢; simp [hq])
      | true =>
        have hq := liveChan_flags_elim x y _ false true hvold hA hout
        exact liveChan_of_flags _ _ _ true true (by simp [validFlag, hbr]) hA
          (by simp [ChanShape] at hq ⊢; simp [hq])
  | startFailEarly => rename_i hp hd hi hr; simp_all
  | startFailSend => rename_i hp hd hi hr; simp_all
  | startDestroyed => rename_i hp hd; simp_all
  | deliverDrop => rename_i hd; simp_all
  | deliverValid =>
    rename_i hd
    rcases liveChan_head y x GateToken.valid _ hin with
      ⟨-, hvt, htail⟩ | ⟨hc, -, -⟩
    swap
    · simp at hc
    obtain ⟨hyns, hxrn⟩ := validFlag_true_elim y x hvt
    have hbwa : y.phase = GatePhase.waitAck := by
      rcases hy4 with h4 | h4 | h4 | h4
      · exact absurd h4 hyns
      · exact h4
      · exact absurd (hy7 (Or.inl h4)) (by simp [hxrn])
      · exact absurd (hy7 (Or.inr h4)) (by simp [hxrn])
    refine ⟨⟨hx1, hx2, hx3, hx4, Or.inr rfl, fun _ => hyns, hx7, fun _ => rfl⟩,
      ⟨hy1, hy2, hy3, hy4, hy5, hy6, fun _ => rfl, hy8⟩, ?_, ?_⟩
    · rcases htail with ⟨hrest, hack⟩ | ⟨hrest, hack⟩
      · exact liveChan_of_flags _ _ _ false false (by simp [validFlag]) hack hrest
      · exact liveChan_of_flags _ _ _ false true (by simp [validFlag]) hack hrest
    · have haold : ackFlag x y = false := by simp [ackFlag, hxrn]
      cases hS : validFlag x y with
      | false =>
        have hq := liveChan_flags_elim x y _ false false hS haold hout
        exact liveChan_of_flags _ _ _ false true hS (by simp [ackFlag, hbwa])
          (by simp [ChanShape] at hq ⊢; simp [hq])
      | true =>
        have hq := liveChan_flags_elim x y _ true false hS haold hout
        exact liveChan_of_flags _ _ _ true true hS (by simp [ackFlag, hbwa])
          (by simp [ChanShape] at hq ⊢; simp [hq])
  | deliverInvalid =>
    rename_i hd
    rcases liveChan_head y x GateToken.invalid _ hin with ⟨hc, -, -⟩ | ⟨hc, -, -⟩ <;>
      simp at hc
  | deliverDestroy =>
    rename_i hd
    rcases liveChan_head y x GateToken.destroyTok _ hin with ⟨hc, -, -⟩ | ⟨hc, -, -⟩ <;>
      simp at hc
  | deliverAckWaitTrue =>
    rename_i hd hp hr
    rcases liveChan_head y x GateToken.ack _ hin with
      ⟨hc, -, -⟩ | ⟨-, hack, htail⟩
    · simp at hc
    have hyrt : y.remoteInit = some true := (ackFlag_true_elim y x hack).1
    have hvold : validFlag y x = false := by simp [validFlag, hr]
    have hrest : inq' = [] := by
      rcases htail with ⟨hrest, -⟩ | ⟨-, hvt⟩
      · exact hrest
      · rw [hvold] at hvt
        cases hvt
    refine ⟨⟨hx1, hx2, hx3, by simp, hx5, hx6, fun _ => hyrt, fun _ => hr⟩,
      ⟨hy1, hy2, hy3, hy4, hy5, fun _ => by simp, hy7, hy8⟩, ?_, ?_⟩
    · exact liveChan_of_flags _ _ _ false false (by simp [validFlag, hr])
        (by simp [ackFlag]) hrest
    · have hvd : validFlag x y = false := by simp [validFlag, hyrt]
      cases hA : ackFlag x y with
      | false =>
        have hq := liveChan_flags_elim x y _ false false hvd hA hout
        exact liveChan_of_flags _ _ _ false false (by simp [validFlag, hyrt]) hA hq
      | true =>
        have hq := liveChan_flags_elim x y _ false true hvd hA hout
        exact liveChan_of_flags _ _ _ false true (by simp [validFlag, hyrt]) hA hq
  | deliverAckWaitFalse => rename_i hd hp hr; rcases hx5 with h5 | h5 <;> simp_all
  | deliverAckWaitNone =>
    rename_i hd hp hr
    rcases liveChan_head y x GateToken.ack _ hin with
      ⟨hc, -, -⟩ | ⟨-, hack, htail⟩
    · simp at hc
    have hyrt : y.remoteInit = some true := (ackFlag_true_elim y x hack).1
    refine ⟨⟨hx1, hx2, hx3, by simp, hx5, hx6, fun _ => hyrt, by simp⟩,
      ⟨hy1, hy2, hy3, hy4, hy5, fun _ => by simp, hy7, hy8⟩, ?_, ?_⟩
    · rcases htail with ⟨hrest, hvf⟩ | ⟨hrest, hvf⟩
      · exact liveChan_of_flags _ _ _ false false hvf (by simp [ackFlag]) hrest
      · exact liveChan_of_flags _ _ _ true false hvf (by simp [ackFlag]) hrest
    · have haold : ackFlag x y = false := by simp [ackFlag, hr]
      have hvold : validFlag x y = false := by simp [validFlag, hyrt]
      have hq := liveChan_flags_elim x y _ false false hvold haold hout
      exact liveChan_of_flags _ _ _ false false (by simp [validFlag, hyrt]) haold hq
  | deliverAckBroke => rename_i hd hp; rcases hx4 with h4 | h4 | h4 | h4 <;> simp_all
  | deliverAckOther =>
    rename_i hd hp1 hp2
    rcases liveChan_head y x GateToken.ack _ hin with
      ⟨hc, -, -⟩ | ⟨-, hack, -⟩
    · simp at hc
    · exact absurd (ackFlag_true_elim y x hack).2 hp1
  | wakeTrue =>
    rename_i hp hr hd
    have hyrt : y.remoteInit = some true := hx7 (Or.inl hp)
    refine ⟨⟨hx1, hx2, hx3, by simp, hx5, hx6, fun _ => hyrt, fun _ => hr⟩,
      ⟨hy1, hy2, hy3, hy4, hy5, fun _ => by simp, hy7, hy8⟩, ?_, ?_⟩
    · have haold : ackFlag y x = false := by simp [ackFlag, hp]
      cases hS : validFlag y x with
      | false =>
        exact liveChan_of_flags _ _ _ false false hS (by simp [ackFlag])
          (liveChan_flags_elim y x _ false false hS haold hin)
      | true =>
        exact liveChan_of_flags _ _ _ true false hS (by simp [ackFlag])
          (liveChan_flags_elim y x _ true false hS haold hin)
    · have hvold : validFlag x y = false := by simp [validFlag, hyrt]
      cases hA : ackFlag x y with
      | false =>
        exact liveChan_of_flags _ _ _ false false (by simp [validFlag, hyrt]) hA
          (liveChan_flags_elim x y _ false false hvold hA hout)
      | true =>
        exact liveChan_of_flags _ _ _ false true (by simp [validFlag, hyrt]) hA
          (liveChan_flags_elim x y _ false true hvold hA hout)
  | wakeTrueDestroyed => rename_i hp hr hd; simp_all
  | wakeFalse => rename_i hp hr; rcases hx5 with h5 | h5 <;> simp_all

/-- The clean-run invariant is preserved by every step of the pair. -/
theorem netStep_live (n m : Net) (h : NetStep n m) (hinv : LiveInv n) : LiveInv m := by
  obtain ⟨ha, hb, hab, hba⟩ := hinv
  cases h with
  | stepA s inq outq hl =>
    have hr := liveStep_local n.a n.b s n.ba n.ab inq outq hl ha hb hba hab
    exact ⟨hr.1, hr.2.1, hr.2.2.2, hr.2.2.1⟩
  | stepB s inq outq hl =>
    have hr := liveStep_local n.b n.a s n.ab n.ba inq outq hl hb ha hab hba
    exact ⟨hr.2.1, hr.1, hr.2.2.1, hr.2.2.2⟩
  | closeA hd hh =>
    rcases hd with h2 | h2
    · exact absurd h2 (by simp [ha.2.1])
    · exact absurd h2 (by simp [hb.2.1])
  | closeB hd hh =>
    rcases hd with h2 | h2
    · exact absurd h2 (by simp [ha.2.1])
    · exact absurd h2 (by simp [hb.2.1])

/-- The fresh clean pair satisfies the clean-run invariant. -/
theorem liveInv_init : LiveInv (initNet true true) := by
  refine ⟨⟨rfl, rfl, rfl, ?_, ?_, ?_, ?_, ?_⟩, ⟨rfl, rfl, rfl, ?_, ?_, ?_, ?_, ?_⟩,
    ?_, ?_⟩ <;>
    simp [initNet, initSide, LiveChan, ChanShape, validFlag, ackFlag]

/-- Every pair state reachable from a clean start satisfies the
clean-run invariant. -/
theorem liveInv_reach (n : Net) (h : GateReach true true n) : LiveInv n := by
  induction h with
  | refl => exact liveInv_init
  | tail hr hstep ih => exact netStep_live _ _ hstep ih

/-- An empty live channel forces both flags off. -/
theorem liveChan_nil_elim (x y : Side) (h : LiveChan x y []) :
    validFlag x y = false ∧ ackFlag x y = false := by
  unfold LiveChan ChanShape at h
  cases hv : validFlag x y <;> cases ha : ackFlag x y <;> rw [hv, ha] at h <;> simp_all

/-- In a quiescent clean state a side whose channels are drained, that
left start, and that is not wakeable, has fired. -/
theorem quiescent_side_fired (x y : Side)
    (hx : LiveSide x y) (hy : LiveSide y x)
    (hvxy : validFlag x y = false) (hvyx : validFlag y x = false)
    (havyx : ackFlag y x = false)
    (hnx : x.phase ≠ GatePhase.start) (hny : y.phase ≠ GatePhase.start)
    (hwx : ¬(x.phase = GatePhase.waitSignal ∧ x.remoteInit = some true)) :
    x.phase = GatePhase.fired := by
  obtain ⟨hx1, hx2, hx3, hx4, hx5, hx6, hx7, hx8⟩ := hx
  obtain ⟨hy1, hy2, hy3, hy4, hy5, hy6, hy7, hy8⟩ := hy
  rcases hx4 with h4 | h4 | h4 | h4
  · exact absurd h4 hnx
  · exfalso
    have hbr : y.remoteInit ≠ some true := by
      intro hr
      simp [ackFlag, hr, h4] at havyx
    have hbn : y.remoteInit = none := by
      rcases hy5 with h5 | h5
      · exact h5
      · exact absurd h5 hbr
    simp [validFlag, hbn, hnx] at hvxy
  · exfalso
    have hxn : x.remoteInit = none := by
      rcases hx5 with h5 | h5
      · exact h5
      · exact absurd ⟨h4, h5⟩ hwx
    simp [validFlag, hxn, hny] at hvyx
  · exact h4

/-- Rewrite the inbox of a local step along an equation. -/
theorem localStep_congr_inq (s : Side) (q q2 outq : List GateToken)
    (s2 : Side) (inq2 outq2 : List GateToken) (hq : q = q2)
    (h : LocalStep s q2 outq s2 inq2 outq2) : LocalStep s q outq s2 inq2 outq2 := by
  rw [hq]
  exact h

/-- A quiescent pair state satisfying the clean-run invariant has fired
the handshake on both sides. -/
theorem quiescent_fired (n : Net) (hinv : LiveInv n) (hq : Quiescent n) :
    n.a.phase = GatePhase.fired ∧ n.b.phase = GatePhase.fired := by
  obtain ⟨ha, hb, hab, hba⟩ := hinv
  have hab0 : n.ab = [] := by
    cases habq : n.ab with
    | nil => rfl
    | cons t rest =>
      exfalso
      apply hq
      rw [habq] at hab
      rcases liveChan_head n.a n.b t rest hab with ⟨ht, hv, -⟩ | ⟨ht, hk, -⟩
      · subst ht
        exact ⟨_, NetStep.stepB n _ _ _ (localStep_congr_inq n.b n.ab _ n.ba _ _ _ habq
          (LocalStep.deliverValid n.b rest n.ba hb.2.1))⟩
      · subst ht
        obtain ⟨har, hbp⟩ := ackFlag_true_elim n.a n.b hk
        rcases hb.2.2.2.2.1 with hbr | hbr
        · exact ⟨_, NetStep.stepB n _ _ _ (localStep_congr_inq n.b n.ab _ n.ba _ _ _ habq
            (LocalStep.deliverAckWaitNone n.b rest n.ba hb.2.1 hbp hbr))⟩
        · exact ⟨_, NetStep.stepB n _ _ _ (localStep_congr_inq n.b n.ab _ n.ba _ _ _ habq
            (LocalStep.deliverAckWaitTrue n.b rest n.ba hb.2.1 hbp hbr))⟩
  have hba0 : n.ba = [] := by
    cases hbaq : n.ba with
    | nil => rfl
    | cons t rest =>
      exfalso
      apply hq
      rw [hbaq] at hba
      rcases liveChan_head n.b n.a t rest hba with ⟨ht, hv, -⟩ | ⟨ht, hk, -⟩
      · subst ht
        exact ⟨_, NetStep.stepA n _ _ _ (localStep_congr_inq n.a n.ba _ n.ab _ _ _ hbaq
          (LocalStep.deliverValid n.a rest n.ab ha.2.1))⟩
      · subst ht
        obtain ⟨hbr, hap⟩ := ackFlag_true_elim n.b n.a hk
        rcases ha.2.2.2.2.1 with har | har
        · exact ⟨_, NetStep.stepA n _ _ _ (localStep_congr_inq n.a n.ba _ n.ab _ _ _ hbaq
            (LocalStep.deliverAckWaitNone n.a rest n.ab ha.2.1 hap har))⟩
        · exact ⟨_, NetStep.stepA n _ _ _ (localStep_congr_inq n.a n.ba _ n.ab _ _ _ hbaq
            (LocalStep.deliverAckWaitTrue n.a rest n.ab ha.2.1 hap har))⟩
  have hfab := liveChan_nil_elim n.a n.b (hab0 ▸ hab)
  have hfba := liveChan_nil_elim n.b n.a (hba0 ▸ hba)
  have hnsa : n.a.phase ≠ GatePhase.start := by
    intro hp
    exact hq ⟨_, NetStep.stepA n _ _ _ (LocalStep.startOk n.a n.ba n.ab hp ha.2.1 ha.1)⟩
  have hnsb : n.b.phase ≠ GatePhase.start := by
    intro hp
    exact hq ⟨_, NetStep.stepB n _ _ _ (LocalStep.startOk n.b n.ab n.ba hp hb.2.1 hb.1)⟩
  have hwa : ¬(n.a.phase = GatePhase.waitSignal ∧ n.a.remoteInit = some true) := by
    rintro ⟨hp, hr⟩
    exact hq ⟨_, NetStep.stepA n _ _ _ (LocalStep.wakeTrue n.a n.ba n.ab hp hr ha.2.1)⟩
  have hwb : ¬(n.b.phase = GatePhase.waitSignal ∧ n.b.remoteInit = some true) := by
    rintro ⟨hp, hr⟩
    exact hq ⟨_, NetStep.stepB n _ _ _ (LocalStep.wakeTrue n.b n.ab n.ba hp hr hb.2.1)⟩
  exact ⟨quiescent_side_fired n.a n.b ha hb hfab.1 hfba.1 hfba.2 hnsa hnsb hwa,
    quiescent_side_fired n.b n.a hb ha hfba.1 hfab.1 hfab.2 hnsb hnsa hwb⟩

/-- The completed clean run is reachable: both sides start, exchange the
valid tokens, record them and respond, and fire on the responses. -/
theorem gateReach_final : GateReach true true gateNetFinal := by
  have s1 : NetStep (initNet true true)
      { a := waitAckSide, b := initSide true, ab := [GateToken.valid], ba := [] } :=
    NetStep.stepA _ _ _ _ (LocalStep.startOk _ _ _ rfl rfl rfl)
  have s2 : NetStep
      { a := waitAckSide, b := initSide true, ab := [GateToken.valid], ba := [] }
      { a := waitAckSide, b := waitAckSide, ab := [GateToken.valid], ba := [GateToken.valid] } :=
    NetStep.stepB _ _ _ _ (LocalStep.startOk _ _ _ rfl rfl rfl)
  have s3 : NetStep
      { a := waitAckSide, b := waitAckSide, ab := [GateToken.valid], ba := [GateToken.valid] }
      { a := waitAckSide, b := recvdSide, ab := [], ba := [GateToken.valid, GateToken.ack] } :=
    NetStep.stepB _ _ _ _ (LocalStep.deliverValid _ _ _ rfl)
  have s4 : NetStep
      { a := waitAckSide, b := recvdSide, ab := [], ba := [GateToken.valid, GateToken.ack] }
      { a := recvdSide, b := recvdSide, ab := [GateToken.ack], ba := [GateToken.ack] } :=
    NetStep.stepA _ _ _ _ (LocalStep.deliverValid _ _ _ rfl)
  have s5 : NetStep
      { a := recvdSide, b := recvdSide, ab := [GateToken.ack], ba := [GateToken.ack] }
      { a := firedSide, b := recvdSide, ab := [GateToken.ack], ba := [] } :=
    NetStep.stepA _ _ _ _ (LocalStep.deliverAckWaitTrue _ _ _ rfl rfl rfl)
  have s6 : NetStep
      { a := firedSide, b := recvdSide, ab := [GateToken.ack], ba := [] }
      gateNetFinal :=
    NetStep.stepB _ _ _ _ (LocalStep.deliverAckWaitTrue _ _ _ rfl rfl rfl)
  exact Relation.ReflTransGen.tail (Relation.ReflTransGen.tail
    (Relation.ReflTransGen.tail (Relation.ReflTransGen.tail
      (Relation.ReflTransGen.tail (Relation.ReflTransGen.tail
        Relation.ReflTransGen.refl s1) s2) s3) s4) s5) s6

/-- No step is enabled in the completed clean run. -/
theorem gateNetFinal_quiescent : Quiescent gateNetFinal := by
  rintro ⟨m, hm⟩
  cases hm with
  | stepA s inq outq hl =>
    simp only [gateNetFinal] at hl
    cases hl <;> simp_all [firedSide]
  | stepB s inq outq hl =>
    simp only [gateNetFinal] at hl
    cases hl <;> simp_all [firedSide]
  | closeA hd hh => rcases hd with h2 | h2 <;> simp_all [gateNetFinal, firedSide]
  | closeB hd hh => rcases hd with h2 | h2 <;> simp_all [gateNetFinal, firedSide]

/-- C2: over every reachable state of a connected Session pair, a fired
handshake on either side implies the init gate resolved to valid on both
sides, that is the onInit hooks of every extension succeeded on both; and
when both sides resolve valid, every completed run (a reachable state
where no step remains) has fired the handshake hooks and event on both
sides. In particular if either side has a failing onInit hook, no
reachable state has a fired side. -/
theorem init_gate_handshake_iff (ia ib : Bool) (n : Net) (h : GateReach ia ib n) :
    ((n.a.phase = GatePhase.fired ∨ n.b.phase = GatePhase.fired) →
      ia = true ∧ ib = true) ∧
    (ia = true → ib = true → Quiescent n →
      n.a.phase = GatePhase.fired ∧ n.b.phase = GatePhase.fired) := by
  constructor
  · intro hf
    have hs := safeInv_reach ia ib n h
    have hi := initsOk_reach ia ib n h
    rcases hf with hf | hf
    · have h1 : n.a.initsOk = true := hs.1.1 (Or.inr (Or.inr hf))
      have h2 : n.b.initsOk = true := hs.1.2.2.2 hf
      exact ⟨hi.1.symm.trans h1, hi.2.symm.trans h2⟩
    · have h1 : n.b.initsOk = true := hs.2.1 (Or.inr (Or.inr hf))
      have h2 : n.a.initsOk = true := hs.2.2.2.2 hf
      exact ⟨hi.1.symm.trans h2, hi.2.symm.trans h1⟩
  · intro hia hib hqn
    subst hia
    subst hib
    exact quiescent_fired n (liveInv_reach n h) hqn

/-- The clean completed run witnesses both directions of C2 with all
hypotheses discharged at the concrete state gateNetFinal. -/
theorem init_gate_handshake_iff_witness :
    ((gateNetFinal.a.phase = GatePhase.fired ∨
        gateNetFinal.b.phase = GatePhase.fired) → true = true ∧ true = true) ∧
    (gateNetFinal.a.phase = GatePhase.fired ∧
      gateNetFinal.b.phase = GatePhase.fired) := by
  have hmain := init_gate_handshake_iff true true gateNetFinal gateReach_final
  exact ⟨hmain.1, hmain.2 rfl rfl gateNetFinal_quiescent⟩

end Dxos
